import Mathlib

/-!
# Verification of the nofx trading system core

Shallow embedding, in Lean 4, of the parts of the nofx repository that the
verified properties talk about:

* `market/monitor.go` — the market-data cache (`WSMonitor`): `GetCurrentKlines`,
  `processKlineUpdate`, `getKlineDataMap`.
* `market/combined_streams.go` — the combined-streams client:
  `handleReconnect`, `handleCombinedMessage`.
* `manager/trader_manager.go` — `getConcurrentTraderData`.
* the `mcp` AI client — `CallWithMessages`, `isRetryableError`.
* the `trader` package position tracker and PnL helpers (only their tests ship
  in the sources at hand; those definitions are modelled from the spec and
  cross-checked against the expectations of the tests).

Go floats are modelled as rationals (`ℚ`), timestamps and durations as `Int`
seconds, `sync.Map` / Go maps as association lists, and Go slices — where
aliasing matters — as references into an explicit slice store.
-/

namespace market

/-- One OHLCV bar, translated from the Go `Kline` struct as used by
`monitor.go` (`OpenTime`, `CloseTime`, `Trades` and the float fields parsed in
`processKlineUpdate`). -/
structure Kline where
  openTime : Int
  closeTime : Int
  trades : Int
  openPrice : ℚ
  high : ℚ
  low : ℚ
  closePrice : ℚ
  volume : ℚ
  quoteVolume : ℚ
  takerBuyBaseVolume : ℚ
  takerBuyQuoteVolume : ℚ
deriving DecidableEq, Repr

/-- `KlineCacheEntry` from `monitor.go`: the cached bars plus the time the
data was received (modelled in seconds). -/
structure KlineCacheEntry where
  klines : List Kline
  receivedAt : Int
deriving DecidableEq, Repr

/-- A `sync.Map` keyed by symbol, as an association list. -/
abbrev KlineMap := List (String × KlineCacheEntry)

/-- `sync.Map.Load`. -/
def lookupEntry (m : KlineMap) (k : String) : Option KlineCacheEntry :=
  match m with
  | [] => none
  | (k', e) :: rest => if k' = k then some e else lookupEntry rest k

/-- `sync.Map.Store`: replace the binding for `k`, or append it. -/
def storeEntry (m : KlineMap) (k : String) (e : KlineCacheEntry) : KlineMap :=
  match m with
  | [] => [(k, e)]
  | (k', e') :: rest =>
      if k' = k then (k, e) :: rest else (k', e') :: storeEntry rest k e

/-- The kline caches of `WSMonitor` (`klineDataMap3m`, `klineDataMap4h`). -/
structure MonitorState where
  map3m : KlineMap
  map4h : KlineMap
deriving DecidableEq, Repr

/-- `getKlineDataMap` from `monitor.go`: the 3m map, the 4h map, or — for any
other interval — a fresh empty map. -/
def getKlineDataMap (st : MonitorState) (t : String) : KlineMap :=
  if t = "3m" then st.map3m
  else if t = "4h" then st.map4h
  else []

/-- Writing back the map selected by `getKlineDataMap`: a store into the fresh
empty map returned for an unknown interval is lost, exactly as in the source
where `getKlineDataMap` hands out a throwaway `sync.Map` in that case. -/
def setKlineDataMap (st : MonitorState) (t : String) (m : KlineMap) : MonitorState :=
  if t = "3m" then ⟨m, st.map4h⟩
  else if t = "4h" then ⟨st.map3m, m⟩
  else st

/-- The staleness threshold of `GetCurrentKlines`: `15 * time.Minute`,
in seconds. -/
def staleMaxAge : Int := 15 * 60

/-- The errors `GetCurrentKlines` can return: the staleness error (which names
the symbol, the interval and the age in minutes) and a failed provider pull. -/
inductive GetKlinesError where
  | staleData (symbol interval : String) (ageMinutes : ℚ)
  | pullFailed (interval msg : String)
deriving DecidableEq, Repr

/-- Everything observable about one `GetCurrentKlines` call: its return value,
the monitor state afterwards, how many provider pulls it made, and which
streams it subscribed. -/
structure GetKlinesOutcome where
  result : Except GetKlinesError (List Kline)
  state : MonitorState
  pulls : Nat
  subscribedStreams : List String
deriving Repr

/-- The pull endpoint `apiClient.GetKlines(symbol, duration, 100)`, as an
oracle from symbol and interval to a result. -/
abbrev Provider := String → String → Except String (List Kline)

/-- Go's `strings.ToUpper` (character-wise upper-casing). -/
def strUpper (s : String) : String := ⟨s.data.map Char.toUpper⟩

/-- Go's `strings.ToLower` (character-wise lower-casing). -/
def strLower (s : String) : String := ⟨s.data.map Char.toLower⟩

/-- `GetCurrentKlines` from `monitor.go`.  On a cache miss it pulls once from
the provider, stores the pulled bars under `strings.ToUpper(symbol)` stamped
with the current time, subscribes the kline stream for the symbol, and returns
the pulled bars.  On a cache hit it refuses the read with a staleness error if
the data is older than `staleMaxAge`, and otherwise returns the cached bars. -/
def GetCurrentKlines (st : MonitorState) (provider : Provider) (now : Int)
    (symbol duration : String) : GetKlinesOutcome :=
  match lookupEntry (getKlineDataMap st duration) symbol with
  | none =>
      match provider symbol duration with
      | Except.error e => ⟨Except.error (GetKlinesError.pullFailed duration e), st, 1, []⟩
      | Except.ok klines =>
          let entry : KlineCacheEntry := ⟨klines, now⟩
          let st' := setKlineDataMap st duration
            (storeEntry (getKlineDataMap st duration) (strUpper symbol) entry)
          let stream := strLower symbol ++ "@kline_" ++ duration
          ⟨Except.ok klines, st', 1, [stream]⟩
  | some entry =>
      let dataAge := now - entry.receivedAt
      if staleMaxAge < dataAge then
        ⟨Except.error
          (GetKlinesError.staleData symbol duration ((dataAge : ℚ) / 60)), st, 0, []⟩
      else
        ⟨Except.ok entry.klines, st, 0, []⟩

end market

namespace market

/-- The kline-list update step of `processKlineUpdate`: if the incoming bar has
the open time of the last stored bar, replace that bar in place; otherwise
append it and drop the oldest bar once the length exceeds 100. -/
def updateKlines (ks : List Kline) (k : Kline) : List Kline :=
  match ks.getLast? with
  | some lastBar =>
      if lastBar.openTime = k.openTime then
        ks.dropLast ++ [k]
      else
        let ks' := ks ++ [k]
        if 100 < ks'.length then ks'.tail else ks'
  | none =>
      let ks' := ks ++ [k]
      if 100 < ks'.length then ks'.tail else ks'

/-- `processKlineUpdate` from `monitor.go`: update (or create) the cache entry
for `symbol` in the interval map for `t`, stamping `receivedAt` with the
current time. -/
def processKlineUpdate (st : MonitorState) (now : Int) (symbol : String)
    (k : Kline) (t : String) : MonitorState :=
  let m := getKlineDataMap st t
  let klines :=
    match lookupEntry m symbol with
    | some entry => updateKlines entry.klines k
    | none => [k]
  setKlineDataMap st t (storeEntry m symbol ⟨klines, now⟩)

theorem lookupEntry_storeEntry_self (m : KlineMap) (k : String) (e : KlineCacheEntry) :
    lookupEntry (storeEntry m k e) k = some e := by
  induction m with
  | nil => simp [storeEntry, lookupEntry]
  | cons p rest ih =>
      obtain ⟨k', e'⟩ := p
      by_cases h : k' = k
      · simp [storeEntry, lookupEntry, h]
      · simp [storeEntry, lookupEntry, h, ih]

end market

/-- C1: A cache hit older than 15 minutes is refused with the staleness error
naming symbol, interval and age in minutes, with no provider pull; an entry
aged exactly 900 s is still served and one aged 901 s is refused. -/
theorem c1_stale_read_refused (st : market.MonitorState) (provider : market.Provider)
    (now : Int) (symbol duration : String) (entry : market.KlineCacheEntry)
    (h : market.lookupEntry (market.getKlineDataMap st duration) symbol = some entry) :
    (market.staleMaxAge < now - entry.receivedAt →
      (market.GetCurrentKlines st provider now symbol duration).result =
        Except.error (market.GetKlinesError.staleData symbol duration
          (((now - entry.receivedAt : Int) : ℚ) / 60)) ∧
      (market.GetCurrentKlines st provider now symbol duration).pulls = 0) ∧
    (now - entry.receivedAt = 900 →
      (market.GetCurrentKlines st provider now symbol duration).result =
        Except.ok entry.klines) ∧
    (now - entry.receivedAt = 901 →
      (market.GetCurrentKlines st provider now symbol duration).result =
        Except.error (market.GetKlinesError.staleData symbol duration
          (((now - entry.receivedAt : Int) : ℚ) / 60)) ∧
      (market.GetCurrentKlines st provider now symbol duration).pulls = 0) := by
  refine ⟨fun hage => ?_, fun hage => ?_, fun hage => ?_⟩
  · simp only [market.GetCurrentKlines, h]
    rw [if_pos hage]
    exact ⟨rfl, rfl⟩
  · simp only [market.GetCurrentKlines, h]
    rw [if_neg (by rw [hage]; decide)]
  · simp only [market.GetCurrentKlines, h]
    rw [if_pos (by rw [hage]; decide)]
    exact ⟨rfl, rfl⟩

/-- Witness for C1 at a concrete state: an entry received at time 0 read at
time 901 (15 min 1 s) is refused with the staleness error and no pull, and the
same entry read at time 900 (15 min 0 s) is served. -/
theorem c1_stale_read_refused_witness :
    (market.GetCurrentKlines ⟨[("BTCUSDT", ⟨[], 0⟩)], []⟩ (fun _ _ => Except.ok [])
        901 "BTCUSDT" "3m").result =
      Except.error (market.GetKlinesError.staleData "BTCUSDT" "3m"
        (((901 - (0 : Int) : Int) : ℚ) / 60)) ∧
    (market.GetCurrentKlines ⟨[("BTCUSDT", ⟨[], 0⟩)], []⟩ (fun _ _ => Except.ok [])
        901 "BTCUSDT" "3m").pulls = 0 ∧
    (market.GetCurrentKlines ⟨[("BTCUSDT", ⟨[], 0⟩)], []⟩ (fun _ _ => Except.ok [])
        900 "BTCUSDT" "3m").result = Except.ok [] := by
  have h₁ := c1_stale_read_refused ⟨[("BTCUSDT", ⟨[], 0⟩)], []⟩
    (fun _ _ => Except.ok []) 901 "BTCUSDT" "3m" ⟨[], 0⟩ (by decide)
  have h₂ := c1_stale_read_refused ⟨[("BTCUSDT", ⟨[], 0⟩)], []⟩
    (fun _ _ => Except.ok []) 900 "BTCUSDT" "3m" ⟨[], 0⟩ (by decide)
  exact ⟨(h₁.2.2 (by decide)).1, (h₁.2.2 (by decide)).2, h₂.2.1 (by decide)⟩

namespace market

theorem getKlineDataMap_setKlineDataMap (st : MonitorState) (t : String) (m : KlineMap)
    (h : t = "3m" ∨ t = "4h") :
    getKlineDataMap (setKlineDataMap st t m) t = m := by
  rcases h with h | h <;> subst h <;> simp [getKlineDataMap, setKlineDataMap]

theorem interval_cases_of_lookup_some (st : MonitorState) (t sym : String)
    (entry : KlineCacheEntry)
    (h : lookupEntry (getKlineDataMap st t) sym = some entry) :
    t = "3m" ∨ t = "4h" := by
  by_cases h3 : t = "3m"
  · exact Or.inl h3
  · by_cases h4 : t = "4h"
    · exact Or.inr h4
    · rw [getKlineDataMap, if_neg h3, if_neg h4] at h
      simp [lookupEntry] at h

/-- A concrete sample bar, used by witnesses. -/
def k0 : Kline := ⟨7, 8, 1, 2, 3, 1, 2, 5, 5, 5, 5⟩

end market


namespace market

/-- Evaluation of the cache-hit path of `GetCurrentKlines` on fresh data. -/
theorem getCurrentKlines_hit_fresh (st : MonitorState) (provider : Provider)
    (now : Int) (symbol duration : String) (entry : KlineCacheEntry)
    (h : lookupEntry (getKlineDataMap st duration) symbol = some entry)
    (hfresh : ¬ staleMaxAge < now - entry.receivedAt) :
    GetCurrentKlines st provider now symbol duration =
      ⟨Except.ok entry.klines, st, 0, []⟩ := by
  simp [GetCurrentKlines, h, hfresh]

/-- Evaluation of the cache-miss path of `GetCurrentKlines` when the provider
pull succeeds. -/
theorem getCurrentKlines_miss_ok (st : MonitorState) (provider : Provider)
    (now : Int) (symbol duration : String) (klines : List Kline)
    (hmiss : lookupEntry (getKlineDataMap st duration) symbol = none)
    (hpull : provider symbol duration = Except.ok klines) :
    GetCurrentKlines st provider now symbol duration =
      ⟨Except.ok klines,
        setKlineDataMap st duration
          (storeEntry (getKlineDataMap st duration) (strUpper symbol) ⟨klines, now⟩),
        1, [strLower symbol ++ "@kline_" ++ duration]⟩ := by
  simp [GetCurrentKlines, hmiss, hpull]

end market

/-- C6 counterexample: the claim promises that after a cache-miss `get` seeds
the cache, an immediately following `get` for the same symbol and interval is
a cache hit rather than another pull.  With the lower-case symbol `btcusdt`
and interval `3m` the seed is stored under the upper-cased key `BTCUSDT`, so
the immediately following identical call misses again and performs a second
provider pull. -/
theorem c6_counterexample :
    (market.GetCurrentKlines
      (market.GetCurrentKlines ⟨[], []⟩ (fun _ _ => Except.ok [market.k0]) 0
        "btcusdt" "3m").state
      (fun _ _ => Except.ok [market.k0]) 0 "btcusdt" "3m").pulls = 1 := by
  decide

/-- C6 (amended): on a cache miss with a successful pull, `GetCurrentKlines`
performs exactly one provider pull, seeds the interval's cache under the
upper-cased symbol with `receivedAt = now`, subscribes the kline stream for
that symbol and interval, and returns the pulled data; an immediately
following `get` for the same symbol and interval is then a cache hit (no
pull) provided the symbol is already upper-case and the interval is one of
the cached intervals `3m`/`4h`. -/
theorem c6_miss_pull_seeds_cache (st : market.MonitorState) (provider : market.Provider)
    (now now₂ : Int) (symbol duration : String) (klines : List market.Kline)
    (hmiss : market.lookupEntry (market.getKlineDataMap st duration) symbol = none)
    (hpull : provider symbol duration = Except.ok klines) :
    (market.GetCurrentKlines st provider now symbol duration).result = Except.ok klines ∧
    (market.GetCurrentKlines st provider now symbol duration).pulls = 1 ∧
    (market.GetCurrentKlines st provider now symbol duration).subscribedStreams =
      [market.strLower symbol ++ "@kline_" ++ duration] ∧
    (duration = "3m" ∨ duration = "4h" →
      market.lookupEntry
        (market.getKlineDataMap
          (market.GetCurrentKlines st provider now symbol duration).state duration)
        (market.strUpper symbol) = some ⟨klines, now⟩) ∧
    (market.strUpper symbol = symbol → (duration = "3m" ∨ duration = "4h") →
      now₂ - now ≤ market.staleMaxAge →
      (market.GetCurrentKlines
          (market.GetCurrentKlines st provider now symbol duration).state
          provider now₂ symbol duration).pulls = 0 ∧
      (market.GetCurrentKlines
          (market.GetCurrentKlines st provider now symbol duration).state
          provider now₂ symbol duration).result = Except.ok klines) := by
  have hstep := market.getCurrentKlines_miss_ok st provider now symbol duration klines
    hmiss hpull
  have hlook : duration = "3m" ∨ duration = "4h" →
      market.lookupEntry
        (market.getKlineDataMap
          (market.GetCurrentKlines st provider now symbol duration).state duration)
        (market.strUpper symbol) = some ⟨klines, now⟩ := by
    intro hdur
    rw [hstep]
    rw [market.getKlineDataMap_setKlineDataMap _ _ _ hdur]
    exact market.lookupEntry_storeEntry_self _ _ _
  refine ⟨by rw [hstep], by rw [hstep], by rw [hstep], hlook, ?_⟩
  intro hup hdur hfresh
  have hl := hlook hdur
  rw [hup] at hl
  have hnot : ¬ market.staleMaxAge < now₂ - now := by omega
  have hhit := market.getCurrentKlines_hit_fresh _ provider now₂ symbol duration
    ⟨klines, now⟩ hl hnot
  exact ⟨by rw [hhit], by rw [hhit]⟩

/-- Witness for C6 at a concrete input: starting from the empty cache with the
upper-case symbol `BTCUSDT` and interval `3m`, the first call pulls once,
seeds the cache stamped with the current time, subscribes `btcusdt@kline_3m`,
returns the pulled bar, and an immediately following call is a hit with no
pull. -/
theorem c6_miss_pull_seeds_cache_witness :
    (market.GetCurrentKlines ⟨[], []⟩ (fun _ _ => Except.ok [market.k0]) 5
      "BTCUSDT" "3m").result = Except.ok [market.k0] ∧
    (market.GetCurrentKlines ⟨[], []⟩ (fun _ _ => Except.ok [market.k0]) 5
      "BTCUSDT" "3m").pulls = 1 ∧
    (market.GetCurrentKlines ⟨[], []⟩ (fun _ _ => Except.ok [market.k0]) 5
      "BTCUSDT" "3m").subscribedStreams = [market.strLower "BTCUSDT" ++ "@kline_" ++ "3m"] ∧
    ("3m" = "3m" ∨ "3m" = "4h" →
      market.lookupEntry
        (market.getKlineDataMap
          (market.GetCurrentKlines ⟨[], []⟩ (fun _ _ => Except.ok [market.k0]) 5
            "BTCUSDT" "3m").state "3m")
        (market.strUpper "BTCUSDT") = some ⟨[market.k0], 5⟩) ∧
    (market.strUpper "BTCUSDT" = "BTCUSDT" → ("3m" = "3m" ∨ "3m" = "4h") →
      6 - 5 ≤ market.staleMaxAge →
      (market.GetCurrentKlines
          (market.GetCurrentKlines ⟨[], []⟩ (fun _ _ => Except.ok [market.k0]) 5
            "BTCUSDT" "3m").state
          (fun _ _ => Except.ok [market.k0]) 6 "BTCUSDT" "3m").pulls = 0 ∧
      (market.GetCurrentKlines
          (market.GetCurrentKlines ⟨[], []⟩ (fun _ _ => Except.ok [market.k0]) 5
            "BTCUSDT" "3m").state
          (fun _ _ => Except.ok [market.k0]) 6 "BTCUSDT" "3m").result =
        Except.ok [market.k0]) :=
  c6_miss_pull_seeds_cache ⟨[], []⟩ (fun _ _ => Except.ok [market.k0]) 5 6
    "BTCUSDT" "3m" [market.k0] (by decide) rfl

namespace market

/-- A second sample bar sharing `k0`'s open time (a still-forming bar tick). -/
def k1 : Kline := ⟨7, 9, 2, 3, 4, 2, 3, 6, 6, 6, 6⟩

theorem getLast?_eq_none_imp_nil (ks : List Kline) (h : ks.getLast? = none) :
    ks = [] := by
  cases ks with
  | nil => rfl
  | cons a l => simp [List.getLast?_concat] at h

end market

namespace market

theorem updateKlines_last_match (ks : List Kline) (k lastBar : Kline)
    (hlast : ks.getLast? = some lastBar) (heq : lastBar.openTime = k.openTime) :
    updateKlines ks k = ks.dropLast ++ [k] := by
  unfold updateKlines
  rw [hlast]
  simp [heq]

theorem updateKlines_last_mismatch (ks : List Kline) (k lastBar : Kline)
    (hlast : ks.getLast? = some lastBar) (hne : lastBar.openTime ≠ k.openTime) :
    updateKlines ks k =
      if 100 < (ks ++ [k]).length then (ks ++ [k]).tail else ks ++ [k] := by
  unfold updateKlines
  rw [hlast]
  simp [hne]

end market

/-- C7: for a provider tick applied to an existing cache entry, a tick whose
open time matches the last stored bar replaces that bar in place; otherwise it
is appended and the oldest bar dropped once the length exceeds 100, so a
sequence of at most 100 bars stays at most 100 bars; and the rewritten entry
is stamped `receivedAt = now` in every case. -/
theorem c7_tick_update (st : market.MonitorState) (now : Int) (symbol : String)
    (k : market.Kline) (t : String) (entry : market.KlineCacheEntry)
    (h : market.lookupEntry (market.getKlineDataMap st t) symbol = some entry) :
    market.lookupEntry
        (market.getKlineDataMap (market.processKlineUpdate st now symbol k t) t) symbol
      = some ⟨market.updateKlines entry.klines k, now⟩ ∧
    (∀ lastBar, entry.klines.getLast? = some lastBar → lastBar.openTime = k.openTime →
      market.updateKlines entry.klines k = entry.klines.dropLast ++ [k] ∧
      (market.updateKlines entry.klines k).length = entry.klines.length) ∧
    (∀ lastBar, entry.klines.getLast? = some lastBar → lastBar.openTime ≠ k.openTime →
      market.updateKlines entry.klines k =
        if 100 < (entry.klines ++ [k]).length then (entry.klines ++ [k]).tail
        else entry.klines ++ [k]) ∧
    (entry.klines.getLast? = none → market.updateKlines entry.klines k = [k]) ∧
    (entry.klines.length ≤ 100 → (market.updateKlines entry.klines k).length ≤ 100) := by
  have hdur := market.interval_cases_of_lookup_some st t symbol entry h
  refine ⟨?_, ?_, ?_, ?_, ?_⟩
  · simp only [market.processKlineUpdate, h]
    rw [market.getKlineDataMap_setKlineDataMap _ _ _ hdur]
    exact market.lookupEntry_storeEntry_self _ _ _
  · intro lastBar hlast heq
    have hrw := market.updateKlines_last_match entry.klines k lastBar hlast heq
    refine ⟨hrw, ?_⟩
    have hne : entry.klines ≠ [] := by
      intro hnil
      rw [hnil] at hlast
      simp at hlast
    have hpos : 0 < entry.klines.length := List.length_pos.mpr hne
    rw [hrw]
    simp only [List.length_append, List.length_dropLast, List.length_cons,
      List.length_nil]
    omega
  · intro lastBar hlast hne
    exact market.updateKlines_last_mismatch entry.klines k lastBar hlast hne
  · intro hnone
    have hnil := market.getLast?_eq_none_imp_nil entry.klines hnone
    rw [hnil]
    unfold market.updateKlines
    simp
  · intro hle
    cases hlast : entry.klines.getLast? with
    | none =>
        have hnil := market.getLast?_eq_none_imp_nil entry.klines hlast
        rw [hnil]
        unfold market.updateKlines
        simp
    | some lastBar =>
        by_cases heq : lastBar.openTime = k.openTime
        · have hrw := market.updateKlines_last_match entry.klines k lastBar hlast heq
          have hne : entry.klines ≠ [] := by
            intro hnil
            rw [hnil] at hlast
            simp at hlast
          have hpos : 0 < entry.klines.length := List.length_pos.mpr hne
          rw [hrw]
          simp only [List.length_append, List.length_dropLast, List.length_cons,
            List.length_nil]
          omega
        · rw [market.updateKlines_last_mismatch entry.klines k lastBar hlast heq]
          by_cases hlen : 100 < (entry.klines ++ [k]).length
          · simp only [hlen, if_true]
            simp only [List.length_tail, List.length_append, List.length_cons,
              List.length_nil]
            omega
          · simp only [hlen, if_false]
            simp only [List.length_append, List.length_cons, List.length_nil] at hlen ⊢
            omega

/-- Witness for C7 at a concrete input: a tick `k1` sharing the open time of
the single cached bar `k0` replaces it in place, the rewritten entry is
stamped with the current time 42, and the 100-bar cap is respected. -/
theorem c7_tick_update_witness :
    market.lookupEntry
        (market.getKlineDataMap
          (market.processKlineUpdate ⟨[("BTCUSDT", ⟨[market.k0], 0⟩)], []⟩ 42
            "BTCUSDT" market.k1 "3m") "3m") "BTCUSDT"
      = some ⟨market.updateKlines [market.k0] market.k1, 42⟩ ∧
    (∀ lastBar, [market.k0].getLast? = some lastBar →
      lastBar.openTime = market.k1.openTime →
      market.updateKlines [market.k0] market.k1 = [market.k0].dropLast ++ [market.k1] ∧
      (market.updateKlines [market.k0] market.k1).length = [market.k0].length) ∧
    (∀ lastBar, [market.k0].getLast? = some lastBar →
      lastBar.openTime ≠ market.k1.openTime →
      market.updateKlines [market.k0] market.k1 =
        if 100 < ([market.k0] ++ [market.k1]).length then ([market.k0] ++ [market.k1]).tail
        else [market.k0] ++ [market.k1]) ∧
    ([market.k0].getLast? = none → market.updateKlines [market.k0] market.k1 = [market.k1]) ∧
    ([market.k0].length ≤ 100 → (market.updateKlines [market.k0] market.k1).length ≤ 100) :=
  c7_tick_update ⟨[("BTCUSDT", ⟨[market.k0], 0⟩)], []⟩ 42 "BTCUSDT" market.k1 "3m"
    ⟨[market.k0], 0⟩ (by decide)

namespace marketRef

/-!
Aliasing-explicit refinement of the cache paths of `GetCurrentKlines`
(`monitor.go`).  Go slices are modelled as identifiers into an explicit slice
store, so that "the returned slice is a defensive copy of the cached slice"
(the `make` + `copy` on the return paths) becomes a provable statement: the
returned identifier is freshly allocated and writing through it cannot reach
the slice held by any cache entry.  `Kline` holds no references, so Go's
element-wise `copy` is a full copy, which the allocation of a fresh slice with
equal contents models exactly.
-/

open market (Kline GetKlinesError staleMaxAge strUpper strLower Provider)

abbrev SliceId := Nat

/-- A cache entry holding a reference to its kline slice. -/
structure RefEntry where
  klinesRef : SliceId
  receivedAt : Int
deriving DecidableEq, Repr

abbrev RefMap := List (String × RefEntry)

def lookupRef (m : RefMap) (k : String) : Option RefEntry :=
  match m with
  | [] => none
  | (k', e) :: rest => if k' = k then some e else lookupRef rest k

def storeRef (m : RefMap) (k : String) (e : RefEntry) : RefMap :=
  match m with
  | [] => [(k, e)]
  | (k', e') :: rest =>
      if k' = k then (k, e) :: rest else (k', e') :: storeRef rest k e

/-- The monitor caches plus the slice store. -/
structure RefState where
  map3m : RefMap
  map4h : RefMap
  slices : List (SliceId × List Kline)
  next : SliceId
deriving DecidableEq, Repr

def lookupSlice (s : List (SliceId × List Kline)) (x : SliceId) : Option (List Kline) :=
  match s with
  | [] => none
  | (i, v) :: rest => if i = x then some v else lookupSlice rest x

/-- Reading a slice through its reference. -/
def readSlice (st : RefState) (x : SliceId) : List Kline :=
  (lookupSlice st.slices x).getD []

/-- Mutating a slice in place through its reference. -/
def writeSlice (st : RefState) (x : SliceId) (v : List Kline) : RefState :=
  ⟨st.map3m, st.map4h, st.slices.map (fun p => if p.1 = x then (x, v) else p), st.next⟩

/-- Allocating a fresh slice (Go `make` followed by `copy`). -/
def allocSlice (st : RefState) (v : List Kline) : SliceId × RefState :=
  (st.next, ⟨st.map3m, st.map4h, (st.next, v) :: st.slices, st.next + 1⟩)

def getRefMap (st : RefState) (t : String) : RefMap :=
  if t = "3m" then st.map3m
  else if t = "4h" then st.map4h
  else []

def setRefMap (st : RefState) (t : String) (m : RefMap) : RefState :=
  if t = "3m" then ⟨m, st.map4h, st.slices, st.next⟩
  else if t = "4h" then ⟨st.map3m, m, st.slices, st.next⟩
  else st

/-- `GetCurrentKlines` with slice identity made explicit.  The miss path
stores the pulled slice in the cache and returns a fresh copy of it; the
fresh hit path returns a fresh copy of the cached slice. -/
def GetCurrentKlinesRef (st : RefState) (provider : Provider) (now : Int)
    (symbol duration : String) : Except GetKlinesError SliceId × RefState :=
  match lookupRef (getRefMap st duration) symbol with
  | none =>
      match provider symbol duration with
      | Except.error e => (Except.error (GetKlinesError.pullFailed duration e), st)
      | Except.ok klines =>
          let p := st.next
          let st1 := (allocSlice st klines).2
          let st2 := setRefMap st1 duration
            (storeRef (getRefMap st1 duration) (strUpper symbol) ⟨p, now⟩)
          (Except.ok st2.next, (allocSlice st2 klines).2)
  | some entry =>
      if staleMaxAge < now - entry.receivedAt then
        (Except.error (GetKlinesError.staleData symbol duration
          (((now - entry.receivedAt : Int) : ℚ) / 60)), st)
      else
        (Except.ok st.next, (allocSlice st (readSlice st entry.klinesRef)).2)

/-- The observable value of a call: the contents of the returned slice. -/
def getContent (st : RefState) (provider : Provider) (now : Int)
    (symbol duration : String) : Except GetKlinesError (List Kline) :=
  match GetCurrentKlinesRef st provider now symbol duration with
  | (Except.ok r, st') => Except.ok (readSlice st' r)
  | (Except.error e, _) => Except.error e

/-- Every cache entry's slice reference is below the allocation counter. -/
def WFRef (st : RefState) : Prop :=
  (∀ p ∈ st.map3m, p.2.klinesRef < st.next) ∧
  (∀ p ∈ st.map4h, p.2.klinesRef < st.next)

instance (st : RefState) : Decidable (WFRef st) := by
  unfold WFRef
  infer_instance

theorem lookupRef_mem (m : RefMap) (k : String) (e : RefEntry)
    (h : lookupRef m k = some e) : (k, e) ∈ m := by
  induction m with
  | nil => simp [lookupRef] at h
  | cons p rest ih =>
      obtain ⟨k', e'⟩ := p
      by_cases hk : k' = k
      · subst hk
        simp [lookupRef] at h
        simp [h]
      · simp [lookupRef, hk] at h
        exact List.mem_cons_of_mem _ (ih h)

theorem mem_storeRef (m : RefMap) (key : String) (v : RefEntry) (k : String)
    (e : RefEntry) (h : (k, e) ∈ storeRef m key v) : (k, e) ∈ m ∨ e = v := by
  induction m with
  | nil =>
      simp [storeRef] at h
      exact Or.inr h.2
  | cons p rest ih =>
      obtain ⟨k', e'⟩ := p
      by_cases hk : k' = key
      · simp [storeRef, hk] at h
        rcases h with h | h
        · exact Or.inr h.2
        · exact Or.inl (List.mem_cons_of_mem _ h)
      · simp [storeRef, hk] at h
        rcases h with h | h
        · exact Or.inl (by simp [h])
        · rcases ih h with h' | h'
          · exact Or.inl (List.mem_cons_of_mem _ h')
          · exact Or.inr h'

theorem lookupSlice_write_ne (s : List (SliceId × List Kline)) (r x : SliceId)
    (v : List Kline) (hne : x ≠ r) :
    lookupSlice (s.map (fun p => if p.1 = r then (r, v) else p)) x = lookupSlice s x := by
  induction s with
  | nil => simp [lookupSlice]
  | cons p rest ih =>
      obtain ⟨i, w⟩ := p
      by_cases hi : i = r
      · subst hi
        simp only [List.map_cons, if_pos rfl]
        rw [lookupSlice, lookupSlice, if_neg (fun hh => hne hh.symm),
          if_neg (fun hh => hne hh.symm)]
        exact ih
      · simp only [List.map_cons, if_neg hi]
        rw [lookupSlice, lookupSlice]
        by_cases hx : i = x
        · simp [hx]
        · simp [hx, ih]

theorem readSlice_writeSlice_ne (st : RefState) (r x : SliceId) (v : List Kline)
    (hne : x ≠ r) : readSlice (writeSlice st r v) x = readSlice st x := by
  unfold readSlice writeSlice
  rw [lookupSlice_write_ne st.slices r x v hne]

theorem getRefMap_writeSlice (st : RefState) (r : SliceId) (v : List Kline)
    (t : String) : getRefMap (writeSlice st r v) t = getRefMap st t := by
  simp [getRefMap, writeSlice]

theorem getRefMap_alloc (st : RefState) (v : List Kline) (t : String) :
    getRefMap (allocSlice st v).2 t = getRefMap st t := by
  simp [getRefMap, allocSlice]

theorem readSlice_allocSelf (st : RefState) (v : List Kline) :
    readSlice (allocSlice st v).2 st.next = v := by
  simp [readSlice, allocSlice, lookupSlice]

end marketRef

namespace marketRef

open market (Kline GetKlinesError staleMaxAge strUpper strLower Provider)

theorem setRefMap_next (st : RefState) (t : String) (m : RefMap) :
    (setRefMap st t m).next = st.next := by
  unfold setRefMap
  split_ifs <;> rfl

theorem allocSlice_next (st : RefState) (v : List Kline) :
    (allocSlice st v).2.next = st.next + 1 := rfl

theorem getRefMap_setRefMap_self (st : RefState) (t : String) (m : RefMap)
    (h : t = "3m" ∨ t = "4h") : getRefMap (setRefMap st t m) t = m := by
  rcases h with h | h <;> subst h <;> simp [getRefMap, setRefMap]

theorem getRefMap_other (st : RefState) (t : String)
    (h : ¬(t = "3m" ∨ t = "4h")) : getRefMap st t = [] := by
  push_neg at h
  simp [getRefMap, h.1, h.2]

theorem wf_getRefMap (st : RefState) (hwf : WFRef st) (t : String)
    (k : String) (e : RefEntry) (hmem : (k, e) ∈ getRefMap st t) :
    e.klinesRef < st.next := by
  by_cases h3 : t = "3m"
  · rw [getRefMap, if_pos h3] at hmem
    exact hwf.1 (k, e) hmem
  · by_cases h4 : t = "4h"
    · rw [getRefMap, if_neg h3, if_pos h4] at hmem
      exact hwf.2 (k, e) hmem
    · rw [getRefMap, if_neg h3, if_neg h4] at hmem
      simp at hmem

/-- After a successful call, no cache entry of the interval's map references
the freshly returned slice. -/
theorem entryRef_ne_of_ok (st : RefState) (provider : Provider) (now : Int)
    (symbol duration : String) (hwf : WFRef st) (r : SliceId) (st' : RefState)
    (h : GetCurrentKlinesRef st provider now symbol duration = (Except.ok r, st')) :
    ∀ k e, lookupRef (getRefMap st' duration) k = some e → e.klinesRef ≠ r := by
  cases hl : lookupRef (getRefMap st duration) symbol with
  | some entry =>
      by_cases hst : staleMaxAge < now - entry.receivedAt
      · simp [GetCurrentKlinesRef, hl, hst] at h
      · have hcall : GetCurrentKlinesRef st provider now symbol duration =
            (Except.ok st.next, (allocSlice st (readSlice st entry.klinesRef)).2) := by
          simp [GetCurrentKlinesRef, hl, hst]
        rw [hcall] at h
        injection h with h1 h2
        injection h1 with h1
        subst h1
        subst h2
        intro k e hke
        rw [getRefMap_alloc] at hke
        have hmem := lookupRef_mem _ _ _ hke
        have := wf_getRefMap st hwf duration k e hmem
        exact Nat.ne_of_lt this
  | none =>
      cases hp : provider symbol duration with
      | error e => simp [GetCurrentKlinesRef, hl, hp] at h
      | ok klines =>
          have hcall : GetCurrentKlinesRef st provider now symbol duration =
              (Except.ok (setRefMap (allocSlice st klines).2 duration
                  (storeRef (getRefMap (allocSlice st klines).2 duration)
                    (strUpper symbol) ⟨st.next, now⟩)).next,
                (allocSlice (setRefMap (allocSlice st klines).2 duration
                  (storeRef (getRefMap (allocSlice st klines).2 duration)
                    (strUpper symbol) ⟨st.next, now⟩)) klines).2) := by
            simp [GetCurrentKlinesRef, hl, hp]
          rw [hcall] at h
          injection h with h1 h2
          injection h1 with h1
          subst h1
          subst h2
          intro k e hke
          rw [getRefMap_alloc] at hke
          rw [setRefMap_next]
          have hmem := lookupRef_mem _ _ _ hke
          by_cases hdur : duration = "3m" ∨ duration = "4h"
          · rw [getRefMap_setRefMap_self _ _ _ hdur] at hmem
            rcases mem_storeRef _ _ _ _ _ hmem with hold | hnew
            · rw [getRefMap_alloc] at hold
              have := wf_getRefMap st hwf duration k e hold
              rw [allocSlice_next]
              exact Nat.ne_of_lt (Nat.lt_succ_of_lt this)
            · rw [hnew]
              show st.next ≠ (allocSlice st klines).2.next
              rw [allocSlice_next]
              exact Nat.ne_of_lt (Nat.lt_succ_self st.next)
          · have hnone : getRefMap (setRefMap (allocSlice st klines).2 duration
                (storeRef (getRefMap (allocSlice st klines).2 duration)
                  (strUpper symbol) ⟨st.next, now⟩)) duration = [] := by
              unfold setRefMap
              push_neg at hdur
              rw [if_neg hdur.1, if_neg hdur.2]
              exact getRefMap_other _ _ (by push_neg; exact hdur)
            rw [hnone] at hmem
            simp at hmem

theorem getContent_miss_err (st : RefState) (provider : Provider) (now : Int)
    (symbol duration : String) (e : String)
    (hl : lookupRef (getRefMap st duration) symbol = none)
    (hp : provider symbol duration = Except.error e) :
    getContent st provider now symbol duration =
      Except.error (GetKlinesError.pullFailed duration e) := by
  simp [getContent, GetCurrentKlinesRef, hl, hp]

theorem getContent_miss_ok (st : RefState) (provider : Provider) (now : Int)
    (symbol duration : String) (klines : List Kline)
    (hl : lookupRef (getRefMap st duration) symbol = none)
    (hp : provider symbol duration = Except.ok klines) :
    getContent st provider now symbol duration = Except.ok klines := by
  have hcall : GetCurrentKlinesRef st provider now symbol duration =
      (Except.ok (setRefMap (allocSlice st klines).2 duration
          (storeRef (getRefMap (allocSlice st klines).2 duration)
            (strUpper symbol) ⟨st.next, now⟩)).next,
        (allocSlice (setRefMap (allocSlice st klines).2 duration
          (storeRef (getRefMap (allocSlice st klines).2 duration)
            (strUpper symbol) ⟨st.next, now⟩)) klines).2) := by
    simp [GetCurrentKlinesRef, hl, hp]
  unfold getContent
  rw [hcall]
  exact congrArg Except.ok (readSlice_allocSelf _ klines)

theorem getContent_hit_stale (st : RefState) (provider : Provider) (now : Int)
    (symbol duration : String) (entry : RefEntry)
    (hl : lookupRef (getRefMap st duration) symbol = some entry)
    (hst : staleMaxAge < now - entry.receivedAt) :
    getContent st provider now symbol duration =
      Except.error (GetKlinesError.staleData symbol duration
        (((now - entry.receivedAt : Int) : ℚ) / 60)) := by
  simp [getContent, GetCurrentKlinesRef, hl, hst]

theorem getContent_hit_fresh (st : RefState) (provider : Provider) (now : Int)
    (symbol duration : String) (entry : RefEntry)
    (hl : lookupRef (getRefMap st duration) symbol = some entry)
    (hst : ¬ staleMaxAge < now - entry.receivedAt) :
    getContent st provider now symbol duration =
      Except.ok (readSlice st entry.klinesRef) := by
  have hcall : GetCurrentKlinesRef st provider now symbol duration =
      (Except.ok st.next, (allocSlice st (readSlice st entry.klinesRef)).2) := by
    simp [GetCurrentKlinesRef, hl, hst]
  unfold getContent
  rw [hcall]
  exact congrArg Except.ok (readSlice_allocSelf _ _)

/-- Two states with the same interval map and the same contents behind every
cached reference produce the same observable call result. -/
theorem getContent_congr (stA stB : RefState) (provider : Provider) (now₂ : Int)
    (symbol duration : String)
    (hmap : getRefMap stA duration = getRefMap stB duration)
    (hread : ∀ k e, lookupRef (getRefMap stB duration) k = some e →
        readSlice stA e.klinesRef = readSlice stB e.klinesRef) :
    getContent stA provider now₂ symbol duration =
      getContent stB provider now₂ symbol duration := by
  cases hl : lookupRef (getRefMap stB duration) symbol with
  | none =>
      have hlA : lookupRef (getRefMap stA duration) symbol = none := by
        rw [hmap, hl]
      cases hp : provider symbol duration with
      | error e =>
          rw [getContent_miss_err stA provider now₂ symbol duration e hlA hp,
            getContent_miss_err stB provider now₂ symbol duration e hl hp]
      | ok klines =>
          rw [getContent_miss_ok stA provider now₂ symbol duration klines hlA hp,
            getContent_miss_ok stB provider now₂ symbol duration klines hl hp]
  | some entry =>
      have hlA : lookupRef (getRefMap stA duration) symbol = some entry := by
        rw [hmap, hl]
      by_cases hst : staleMaxAge < now₂ - entry.receivedAt
      · rw [getContent_hit_stale stA provider now₂ symbol duration entry hlA hst,
          getContent_hit_stale stB provider now₂ symbol duration entry hl hst]
      · rw [getContent_hit_fresh stA provider now₂ symbol duration entry hlA hst,
          getContent_hit_fresh stB provider now₂ symbol duration entry hl hst,
          hread symbol entry hl]

end marketRef

/-- C5: every successful read returns a defensive copy.  In the
aliasing-explicit model, after a successful `GetCurrentKlines` call returning
slice `r`, writing any contents through `r` changes the contents behind no
cache entry of that interval, and a second call for the same symbol and
interval returns the same observable value as it would have without the
mutation. -/
theorem c5_get_returns_copy (st : marketRef.RefState) (provider : market.Provider)
    (now now₂ : Int) (symbol duration : String) (hwf : marketRef.WFRef st)
    (r : marketRef.SliceId) (st' : marketRef.RefState)
    (h : marketRef.GetCurrentKlinesRef st provider now symbol duration =
      (Except.ok r, st')) (ys : List market.Kline) :
    (∀ k e, marketRef.lookupRef (marketRef.getRefMap st' duration) k = some e →
      marketRef.readSlice (marketRef.writeSlice st' r ys) e.klinesRef =
        marketRef.readSlice st' e.klinesRef) ∧
    marketRef.getContent (marketRef.writeSlice st' r ys) provider now₂ symbol duration =
      marketRef.getContent st' provider now₂ symbol duration := by
  have hne := marketRef.entryRef_ne_of_ok st provider now symbol duration hwf r st' h
  have hread : ∀ k e,
      marketRef.lookupRef (marketRef.getRefMap st' duration) k = some e →
      marketRef.readSlice (marketRef.writeSlice st' r ys) e.klinesRef =
        marketRef.readSlice st' e.klinesRef :=
    fun k e hke =>
      marketRef.readSlice_writeSlice_ne st' r e.klinesRef ys (hne k e hke)
  refine ⟨hread, ?_⟩
  refine marketRef.getContent_congr _ _ provider now₂ symbol duration
    (marketRef.getRefMap_writeSlice st' r ys duration) ?_
  intro k e hke
  exact hread k e hke

/-- A concrete one-entry state for the C5 witness: the cache holds slice 0
with one bar, received at time 0. -/
def c5st : marketRef.RefState := ⟨[("BTCUSDT", ⟨0, 0⟩)], [], [(0, [market.k0])], 1⟩

/-- The state after the witness read: a fresh copy (slice 1) was allocated. -/
def c5st' : marketRef.RefState :=
  ⟨[("BTCUSDT", ⟨0, 0⟩)], [], [(1, [market.k0]), (0, [market.k0])], 2⟩

/-- Witness for C5 at a concrete input: reading `BTCUSDT`/`3m` from `c5st`
returns fresh slice 1; overwriting slice 1 with `[k1]` leaves the cached
contents and the result of a second read unchanged. -/
theorem c5_get_returns_copy_witness :
    (∀ k e, marketRef.lookupRef (marketRef.getRefMap c5st' "3m") k = some e →
      marketRef.readSlice (marketRef.writeSlice c5st' 1 [market.k1]) e.klinesRef =
        marketRef.readSlice c5st' e.klinesRef) ∧
    marketRef.getContent (marketRef.writeSlice c5st' 1 [market.k1])
        (fun _ _ => Except.ok []) 0 "BTCUSDT" "3m" =
      marketRef.getContent c5st' (fun _ _ => Except.ok []) 0 "BTCUSDT" "3m" :=
  c5_get_returns_copy c5st (fun _ _ => Except.ok []) 0 0 "BTCUSDT" "3m"
    (by decide) 1 c5st' (by rfl) [market.k1]

namespace market

/-- A consumer channel of the combined-streams client (`AddSubscriber`):
a buffered Go channel, as its capacity plus current buffer contents. -/
structure Chan where
  capacity : Nat
  buffer : List String
deriving DecidableEq, Repr

/-- The `subscribers` registry of `CombinedStreamsClient`: stream name to
consumer channel. -/
abbrev Subscribers := List (String × Chan)

def lookupChan (m : Subscribers) (k : String) : Option Chan :=
  match m with
  | [] => none
  | (k', c) :: rest => if k' = k then some c else lookupChan rest k

def storeChan (m : Subscribers) (k : String) (c : Chan) : Subscribers :=
  match m with
  | [] => [(k, c)]
  | (k', c') :: rest =>
      if k' = k then (k, c) :: rest else (k', c') :: storeChan rest k c

/-- What `handleCombinedMessage` does with a parsed message. -/
inductive DispatchOutcome where
  | delivered
  | droppedFull
  | noSubscriber
deriving DecidableEq, Repr

/-- The non-blocking send (`select` with a `default` branch) of
`handleCombinedMessage`: enqueue if the buffer has free space, else drop. -/
def trySend (c : Chan) (msg : String) : Chan × Bool :=
  if c.buffer.length < c.capacity then (⟨c.capacity, c.buffer ++ [msg]⟩, true)
  else (c, false)

/-- `handleCombinedMessage` from `combined_streams.go`, after the message has
been parsed into its stream name and payload: look up the stream's consumer
channel; deliver if it exists and has buffer space, silently drop if it is
full, discard if no consumer is registered. -/
def handleCombinedMessage (subs : Subscribers) (stream data : String) :
    Subscribers × DispatchOutcome :=
  match lookupChan subs stream with
  | none => (subs, DispatchOutcome.noSubscriber)
  | some c =>
      let sent := trySend c data
      if sent.2 then (storeChan subs stream sent.1, DispatchOutcome.delivered)
      else (subs, DispatchOutcome.droppedFull)

/-- What one `handleReconnect` invocation does at the level of outgoing
subscribe control messages. -/
inductive ResubscribeAction where
  | noCall
  | subscribeCall (streams : List String)
deriving DecidableEq, Repr

/-- `handleReconnect` from `combined_streams.go`: nothing if the reconnect
flag is cleared; nothing yet if the dial fails (a background retry is
scheduled instead); after a successful dial, collect the keys of the current
`subscribers` registry and issue one subscribe call for all of them iff the
registry is nonempty. -/
def handleReconnect (reconnectFlag : Bool) (connectOk : Bool)
    (subs : Subscribers) : ResubscribeAction :=
  if reconnectFlag = false then ResubscribeAction.noCall
  else if connectOk = false then ResubscribeAction.noCall
  else
    let streams := subs.map Prod.fst
    if 0 < streams.length then ResubscribeAction.subscribeCall streams
    else ResubscribeAction.noCall

theorem lookupChan_storeChan_self (m : Subscribers) (k : String) (c : Chan) :
    lookupChan (storeChan m k c) k = some c := by
  induction m with
  | nil => simp [storeChan, lookupChan]
  | cons p rest ih =>
      obtain ⟨k', c'⟩ := p
      by_cases h : k' = k
      · simp [storeChan, lookupChan, h]
      · simp [storeChan, lookupChan, h, ih]

theorem lookupChan_storeChan_ne (m : Subscribers) (k s : String) (c : Chan)
    (hne : s ≠ k) : lookupChan (storeChan m k c) s = lookupChan m s := by
  have hks : ¬ k = s := fun hh => hne hh.symm
  induction m with
  | nil => simp [storeChan, lookupChan, hks]
  | cons p rest ih =>
      obtain ⟨k', c'⟩ := p
      by_cases h : k' = k
      · subst h
        simp [storeChan, lookupChan, hks]
      · by_cases hs : k' = s
        · subst hs
          simp [storeChan, lookupChan, h, lookupChan]
        · simp [storeChan, lookupChan, h, hs, ih]

end market

/-- C2: upon a successful reconnect with the reconnect flag set, the client
re-issues a subscribe call carrying exactly the current registry of streams
(same count, same membership), and makes no subscribe call when the registry
is empty. -/
theorem c2_reconnect_resubscribes (subs : market.Subscribers) :
    (subs ≠ [] →
      market.handleReconnect true true subs =
        market.ResubscribeAction.subscribeCall (subs.map Prod.fst) ∧
      (subs.map Prod.fst).length = subs.length ∧
      (∀ s, s ∈ subs.map Prod.fst ↔ ∃ c, (s, c) ∈ subs)) ∧
    (subs = [] → market.handleReconnect true true subs = market.ResubscribeAction.noCall) := by
  constructor
  · intro hne
    refine ⟨?_, by simp, ?_⟩
    · have hlen : 0 < (subs.map Prod.fst).length := by
        rw [List.length_map]
        exact List.length_pos.mpr hne
      simp [market.handleReconnect, hlen, hne]
    · intro s
      constructor
      · intro hs
        rcases List.mem_map.mp hs with ⟨p, hp, hfst⟩
        exact ⟨p.2, by rw [← hfst]; exact hp⟩
      · rintro ⟨c, hc⟩
        exact List.mem_map.mpr ⟨(s, c), hc, rfl⟩
  · intro hnil
    subst hnil
    rfl

/-- Witness for C2 at a concrete registry of three streams (the registry of
the reconnect test): the resubscribe call carries exactly those three
streams, and the empty registry produces no call. -/
theorem c2_reconnect_resubscribes_witness :
    market.handleReconnect true true
        [("btcusdt@kline_3m", ⟨10, []⟩), ("ethusdt@kline_4h", ⟨10, []⟩),
          ("solusdt@kline_3m", ⟨10, []⟩)] =
      market.ResubscribeAction.subscribeCall
        ["btcusdt@kline_3m", "ethusdt@kline_4h", "solusdt@kline_3m"] ∧
    market.handleReconnect true true [] = market.ResubscribeAction.noCall := by
  constructor
  · exact ((c2_reconnect_resubscribes
      [("btcusdt@kline_3m", ⟨10, []⟩), ("ethusdt@kline_4h", ⟨10, []⟩),
        ("solusdt@kline_3m", ⟨10, []⟩)]).1 (by decide)).1
  · exact (c2_reconnect_resubscribes []).2 rfl

/-- C10: a parsed combined-stream message is delivered to the channel
registered for its stream exactly when such a channel exists and has buffer
space (the payload is appended to that buffer and no other stream's channel
changes); when the channel's buffer is full the message is dropped and the
registry is left unchanged (it is never delivered later); when no channel is
registered the message is discarded and the registry is unchanged. -/
theorem c10_dispatch (subs : market.Subscribers) (stream data : String) :
    (market.lookupChan subs stream = none →
      market.handleCombinedMessage subs stream data =
        (subs, market.DispatchOutcome.noSubscriber)) ∧
    (∀ c, market.lookupChan subs stream = some c →
      c.buffer.length < c.capacity →
      (market.handleCombinedMessage subs stream data).2 =
        market.DispatchOutcome.delivered ∧
      market.lookupChan (market.handleCombinedMessage subs stream data).1 stream =
        some ⟨c.capacity, c.buffer ++ [data]⟩ ∧
      (∀ s, s ≠ stream →
        market.lookupChan (market.handleCombinedMessage subs stream data).1 s =
          market.lookupChan subs s)) ∧
    (∀ c, market.lookupChan subs stream = some c →
      ¬ c.buffer.length < c.capacity →
      market.handleCombinedMessage subs stream data =
        (subs, market.DispatchOutcome.droppedFull)) := by
  refine ⟨?_, ?_, ?_⟩
  · intro hnone
    simp [market.handleCombinedMessage, hnone]
  · intro c hc hroom
    have hstep : market.handleCombinedMessage subs stream data =
        (market.storeChan subs stream ⟨c.capacity, c.buffer ++ [data]⟩,
          market.DispatchOutcome.delivered) := by
      simp [market.handleCombinedMessage, hc, market.trySend, hroom]
    refine ⟨by rw [hstep], ?_, ?_⟩
    · rw [hstep]
      exact market.lookupChan_storeChan_self _ _ _
    · intro s hs
      rw [hstep]
      exact market.lookupChan_storeChan_ne _ _ _ _ hs
  · intro c hc hfull
    simp [market.handleCombinedMessage, hc, market.trySend, hfull]

/-- Witness for C10 at concrete registries: a message for a stream with a
one-slot free buffer is delivered and lands in that buffer; a message for a
full channel is dropped with the registry unchanged; a message for an
unregistered stream is discarded. -/
theorem c10_dispatch_witness :
    (market.handleCombinedMessage [("btcusdt@kline_3m", ⟨1, []⟩)]
        "btcusdt@kline_3m" "payload").2 = market.DispatchOutcome.delivered ∧
    market.lookupChan
        (market.handleCombinedMessage [("btcusdt@kline_3m", ⟨1, []⟩)]
          "btcusdt@kline_3m" "payload").1 "btcusdt@kline_3m" =
      some ⟨1, [] ++ ["payload"]⟩ ∧
    market.handleCombinedMessage [("btcusdt@kline_3m", ⟨1, ["old"]⟩)]
        "btcusdt@kline_3m" "payload" =
      ([("btcusdt@kline_3m", ⟨1, ["old"]⟩)], market.DispatchOutcome.droppedFull) ∧
    market.handleCombinedMessage [("btcusdt@kline_3m", ⟨1, []⟩)]
        "ethusdt@kline_4h" "payload" =
      ([("btcusdt@kline_3m", ⟨1, []⟩)], market.DispatchOutcome.noSubscriber) := by
  have h₁ := (c10_dispatch [("btcusdt@kline_3m", ⟨1, []⟩)] "btcusdt@kline_3m"
    "payload").2.1 ⟨1, []⟩ (by decide) (by decide)
  have h₂ := (c10_dispatch [("btcusdt@kline_3m", ⟨1, ["old"]⟩)] "btcusdt@kline_3m"
    "payload").2.2 ⟨1, ["old"]⟩ (by decide) (by decide)
  have h₃ := (c10_dispatch [("btcusdt@kline_3m", ⟨1, []⟩)] "ethusdt@kline_4h"
    "payload").1 (by decide)
  exact ⟨h₁.1, h₁.2.1, h₂, h₃⟩

namespace manager

/-- The outcome of one trader's `GetAccountInfo` fetch inside
`getConcurrentTraderData`: the fetched figures, an error from the fetch, or
expiry of the 3-second per-trader timeout. -/
inductive FetchOutcome where
  | fetched (totalEquity totalPnl totalPnlPct marginUsedPct : ℚ) (positionCount : Nat)
  | fetchFailed
  | timedOut
deriving DecidableEq, Repr

/-- The per-trader timeout of `getConcurrentTraderData`
(`context.WithTimeout(..., 3*time.Second)`), in seconds. -/
def perTraderTimeoutSeconds : Nat := 3

/-- One trader as seen by `getConcurrentTraderData`: its identity getters,
its `GetStatus` running flag, and the outcome of its account-info fetch. -/
structure TraderInput where
  traderId : String
  traderName : String
  aiModel : String
  exchange : String
  isRunning : Bool
  fetch : FetchOutcome
deriving DecidableEq, Repr

/-- One leaderboard row built by `getConcurrentTraderData`. -/
structure TraderRow where
  traderId : String
  traderName : String
  aiModel : String
  exchange : String
  totalEquity : ℚ
  totalPnl : ℚ
  totalPnlPct : ℚ
  positionCount : Nat
  marginUsedPct : ℚ
  isRunning : Bool
  errorMsg : Option String
deriving DecidableEq, Repr

/-- The `select` of `getConcurrentTraderData` for one trader: a successful
fetch fills the row from the account info; a fetch error or a timeout
degrades the row to zeroed figures plus the respective error marker. -/
def traderRowOf (t : TraderInput) : TraderRow :=
  match t.fetch with
  | FetchOutcome.fetched eqy pnl pct mu cnt =>
      ⟨t.traderId, t.traderName, t.aiModel, t.exchange, eqy, pnl, pct, cnt, mu,
        t.isRunning, none⟩
  | FetchOutcome.fetchFailed =>
      ⟨t.traderId, t.traderName, t.aiModel, t.exchange, 0, 0, 0, 0, 0,
        t.isRunning, some "账户数据获取失败"⟩
  | FetchOutcome.timedOut =>
      ⟨t.traderId, t.traderName, t.aiModel, t.exchange, 0, 0, 0, 0, 0,
        t.isRunning, some "获取超时"⟩

/-- `getConcurrentTraderData` from `trader_manager.go`: one row per trader,
collected back into input order (`results[result.index] = result.data`). -/
def getConcurrentTraderData (traders : List TraderInput) : List TraderRow :=
  traders.map traderRowOf

end manager

/-- C8: the leaderboard query produces exactly one row per trader, in input
order, each depending only on that trader's own fetch outcome: a successful
fetch fills the row with the fetched figures and no error marker, while a
fetch error or timeout degrades exactly that row to zeroed figures with an
error marker — other traders' rows are unaffected and the aggregate never
fails. -/
theorem c8_leaderboard_rows (traders : List manager.TraderInput) :
    (manager.getConcurrentTraderData traders).length = traders.length ∧
    (∀ i : Nat, (manager.getConcurrentTraderData traders)[i]? =
      (traders[i]?).map manager.traderRowOf) ∧
    (∀ t : manager.TraderInput, ∀ eqy pnl pct mu : ℚ, ∀ cnt : Nat,
      t.fetch = manager.FetchOutcome.fetched eqy pnl pct mu cnt →
      manager.traderRowOf t =
        ⟨t.traderId, t.traderName, t.aiModel, t.exchange, eqy, pnl, pct, cnt, mu,
          t.isRunning, none⟩) ∧
    (∀ t : manager.TraderInput, t.fetch = manager.FetchOutcome.fetchFailed →
      manager.traderRowOf t =
        ⟨t.traderId, t.traderName, t.aiModel, t.exchange, 0, 0, 0, 0, 0,
          t.isRunning, some "账户数据获取失败"⟩) ∧
    (∀ t : manager.TraderInput, t.fetch = manager.FetchOutcome.timedOut →
      manager.traderRowOf t =
        ⟨t.traderId, t.traderName, t.aiModel, t.exchange, 0, 0, 0, 0, 0,
          t.isRunning, some "获取超时"⟩) := by
  refine ⟨by simp [manager.getConcurrentTraderData], ?_, ?_, ?_, ?_⟩
  · intro i
    simp [manager.getConcurrentTraderData]
  · intro t eqy pnl pct mu cnt hf
    simp [manager.traderRowOf, hf]
  · intro t hf
    simp [manager.traderRowOf, hf]
  · intro t hf
    simp [manager.traderRowOf, hf]

/-- A trader whose fetch succeeds, for the C8 witness. -/
def c8tFetched : manager.TraderInput :=
  ⟨"t1", "alpha", "deepseek", "binance", true,
    manager.FetchOutcome.fetched 1000 50 5 10 2⟩

/-- A trader whose fetch times out, for the C8 witness. -/
def c8tTimedOut : manager.TraderInput :=
  ⟨"t2", "beta", "qwen", "binance", true, manager.FetchOutcome.timedOut⟩

/-- Witness for C8 at a concrete two-trader input: two rows come back in
order, the first carrying the fetched figures, the second degraded to zeroed
figures with the timeout marker. -/
theorem c8_leaderboard_rows_witness :
    (manager.getConcurrentTraderData [c8tFetched, c8tTimedOut]).length = 2 ∧
    (manager.getConcurrentTraderData [c8tFetched, c8tTimedOut])[1]? =
      some (manager.traderRowOf c8tTimedOut) ∧
    manager.traderRowOf c8tFetched =
      ⟨"t1", "alpha", "deepseek", "binance", 1000, 50, 5, 2, 10, true, none⟩ ∧
    manager.traderRowOf c8tTimedOut =
      ⟨"t2", "beta", "qwen", "binance", 0, 0, 0, 0, 0, true, some "获取超时"⟩ := by
  refine ⟨(c8_leaderboard_rows [c8tFetched, c8tTimedOut]).1, ?_, ?_, ?_⟩
  · have h := (c8_leaderboard_rows [c8tFetched, c8tTimedOut]).2.1 1
    simpa using h
  · exact (c8_leaderboard_rows [c8tFetched, c8tTimedOut]).2.2.1 c8tFetched
      1000 50 5 10 2 rfl
  · exact (c8_leaderboard_rows [c8tFetched, c8tTimedOut]).2.2.2.2 c8tTimedOut rfl

namespace mcp

def listPrefixOf : List Char → List Char → Bool
  | [], _ => true
  | _ :: _, [] => false
  | a :: as, b :: bs => a == b && listPrefixOf as bs

def listInfixOf (needle hay : List Char) : Bool :=
  match hay with
  | [] => needle.isEmpty
  | _ :: t => listPrefixOf needle hay || listInfixOf needle t

/-- Go's `strings.Contains(s, sub)` (case-sensitive substring test). -/
def strContains (s sub : String) : Bool := listInfixOf sub.data s.data

/-- The `retryableErrors` table of `isRetryableError` in the `mcp` client. -/
def retryableErrors : List String :=
  ["EOF", "timeout", "connection reset", "connection refused",
    "temporary failure", "no such host", "stream error", "INTERNAL_ERROR"]

/-- `isRetryableError` from the `mcp` client: the error message contains one
of the table's substrings. -/
def isRetryableError (errStr : String) : Bool :=
  retryableErrors.any (fun sub => strContains errStr sub)

/-- The transient-failure classifier exactly as the verified property words
it, with "internal server error" as its final listed substring; written down
to compare against the code's `isRetryableError`, whose final table entry is
the literal "INTERNAL_ERROR". -/
def claimTransient (errStr : String) : Bool :=
  (["EOF", "timeout", "connection reset", "connection refused",
    "temporary failure", "no such host", "stream error",
    "internal server error"] : List String).any
    (fun sub => strContains errStr sub)

/-- The ways `CallWithMessages` can fail: missing API key, an immediate
return of a non-retryable error, or exhaustion of all retries (the final
error wraps the retry count and the last failure). -/
inductive CallError where
  | noApiKey
  | nonRetryable (msg : String)
  | exhausted (retries : Nat) (lastErr : String)
deriving DecidableEq, Repr

/-- The retry bound of `CallWithMessages` (`maxRetries := 3`). -/
def maxRetries : Nat := 3

/-- `CallWithMessages` from the `mcp` client, its `for attempt := 1; attempt
<= maxRetries` loop unrolled at `maxRetries = 3`.  `oracle n` is the result
of the n-th `callOnce`.  Returned alongside the result: the number of
attempts made and the seconds slept between attempts (`attempt * 2`,
slept only when a retryable failure is followed by another attempt). -/
def CallWithMessages (apiKey : String) (oracle : Nat → Except String String) :
    Except CallError String × Nat × List Nat :=
  if apiKey = "" then (Except.error CallError.noApiKey, 0, []) else
    match oracle 1 with
    | Except.ok s => (Except.ok s, 1, [])
    | Except.error e1 =>
        if isRetryableError e1 = false then
          (Except.error (CallError.nonRetryable e1), 1, [])
        else
          match oracle 2 with
          | Except.ok s => (Except.ok s, 2, [1 * 2])
          | Except.error e2 =>
              if isRetryableError e2 = false then
                (Except.error (CallError.nonRetryable e2), 2, [1 * 2])
              else
                match oracle 3 with
                | Except.ok s => (Except.ok s, 3, [1 * 2, 2 * 2])
                | Except.error e3 =>
                    if isRetryableError e3 = false then
                      (Except.error (CallError.nonRetryable e3), 3, [1 * 2, 2 * 2])
                    else
                      (Except.error (CallError.exhausted maxRetries e3), 3,
                        [1 * 2, 2 * 2])

end mcp

/-- C9 counterexample: the property classifies an error message containing
"internal server error" as transient and hence retried, but the code's table
holds the case-sensitive literal "INTERNAL_ERROR"; on the message
"internal server error" the code classifies the error non-retryable and
returns it after a single attempt, with no retry. -/
theorem c9_counterexample :
    mcp.claimTransient "internal server error" = true ∧
    mcp.isRetryableError "internal server error" = false ∧
    mcp.CallWithMessages "key" (fun _ => Except.error "internal server error") =
      (Except.error (mcp.CallError.nonRetryable "internal server error"), 1, []) := by
  refine ⟨by decide, by decide, ?_⟩
  have h : mcp.isRetryableError "internal server error" = false := by decide
  simp [mcp.CallWithMessages, h]

/-- C9 (amended): `CallWithMessages` makes at most 3 attempts with waits of
attempt × 2 seconds between attempts; it retries only errors whose message
contains one of the code's table entries (EOF, timeout, connection reset,
connection refused, temporary failure, no such host, stream error, and the
literal "INTERNAL_ERROR" — not the phrase "internal server error"); a
non-retryable error is returned immediately, the first success is returned,
and after exhausting all retries the last failure is wrapped. -/
theorem c9_retry_behavior (apiKey : String) (oracle : Nat → Except String String)
    (hkey : apiKey ≠ "") :
    (mcp.CallWithMessages apiKey oracle).2.1 ≤ mcp.maxRetries ∧
    (∀ s, oracle 1 = Except.ok s →
      mcp.CallWithMessages apiKey oracle = (Except.ok s, 1, [])) ∧
    (∀ e1, oracle 1 = Except.error e1 → mcp.isRetryableError e1 = false →
      mcp.CallWithMessages apiKey oracle =
        (Except.error (mcp.CallError.nonRetryable e1), 1, [])) ∧
    (∀ e1 s, oracle 1 = Except.error e1 → mcp.isRetryableError e1 = true →
      oracle 2 = Except.ok s →
      mcp.CallWithMessages apiKey oracle = (Except.ok s, 2, [1 * 2])) ∧
    (∀ e1 e2, oracle 1 = Except.error e1 → mcp.isRetryableError e1 = true →
      oracle 2 = Except.error e2 → mcp.isRetryableError e2 = false →
      mcp.CallWithMessages apiKey oracle =
        (Except.error (mcp.CallError.nonRetryable e2), 2, [1 * 2])) ∧
    (∀ e1 e2 s, oracle 1 = Except.error e1 → mcp.isRetryableError e1 = true →
      oracle 2 = Except.error e2 → mcp.isRetryableError e2 = true →
      oracle 3 = Except.ok s →
      mcp.CallWithMessages apiKey oracle = (Except.ok s, 3, [1 * 2, 2 * 2])) ∧
    (∀ e1 e2 e3, oracle 1 = Except.error e1 → mcp.isRetryableError e1 = true →
      oracle 2 = Except.error e2 → mcp.isRetryableError e2 = true →
      oracle 3 = Except.error e3 → mcp.isRetryableError e3 = false →
      mcp.CallWithMessages apiKey oracle =
        (Except.error (mcp.CallError.nonRetryable e3), 3, [1 * 2, 2 * 2])) ∧
    (∀ e1 e2 e3, oracle 1 = Except.error e1 → mcp.isRetryableError e1 = true →
      oracle 2 = Except.error e2 → mcp.isRetryableError e2 = true →
      oracle 3 = Except.error e3 → mcp.isRetryableError e3 = true →
      mcp.CallWithMessages apiKey oracle =
        (Except.error (mcp.CallError.exhausted mcp.maxRetries e3), 3,
          [1 * 2, 2 * 2])) := by
  refine ⟨?_, ?_, ?_, ?_, ?_, ?_, ?_, ?_⟩
  · unfold mcp.CallWithMessages
    rw [if_neg hkey]
    cases oracle 1 with
    | ok s => simp [mcp.maxRetries]
    | error e1 =>
        by_cases h1 : mcp.isRetryableError e1 = false
        · simp [h1, mcp.maxRetries]
        · simp only [h1, if_false]
          cases oracle 2 with
          | ok s => simp [mcp.maxRetries]
          | error e2 =>
              by_cases h2 : mcp.isRetryableError e2 = false
              · simp [h2, mcp.maxRetries]
              · simp only [h2, if_false]
                cases oracle 3 with
                | ok s => simp [mcp.maxRetries]
                | error e3 =>
                    by_cases h3 : mcp.isRetryableError e3 = false
                    · simp [h3, mcp.maxRetries]
                    · simp [h3, mcp.maxRetries]
  · intro s h1
    simp [mcp.CallWithMessages, hkey, h1]
  · intro e1 h1 hr1
    simp [mcp.CallWithMessages, hkey, h1, hr1]
  · intro e1 s h1 hr1 h2
    simp [mcp.CallWithMessages, hkey, h1, hr1, h2]
  · intro e1 e2 h1 hr1 h2 hr2
    simp [mcp.CallWithMessages, hkey, h1, hr1, h2, hr2]
  · intro e1 e2 s h1 hr1 h2 hr2 h3
    simp [mcp.CallWithMessages, hkey, h1, hr1, h2, hr2, h3]
  · intro e1 e2 e3 h1 hr1 h2 hr2 h3 hr3
    simp [mcp.CallWithMessages, hkey, h1, hr1, h2, hr2, h3, hr3]
  · intro e1 e2 e3 h1 hr1 h2 hr2 h3 hr3
    simp [mcp.CallWithMessages, hkey, h1, hr1, h2, hr2, h3, hr3]

/-- Witness for C9 at a concrete oracle: the first attempt fails with a
timeout (retryable), the client waits 2 seconds and retries, and the second
attempt's success is returned after exactly 2 attempts. -/
theorem c9_retry_behavior_witness :
    mcp.CallWithMessages "key"
        (fun n => if n = 1 then Except.error "timeout" else Except.ok "done") =
      (Except.ok "done", 2, [1 * 2]) :=
  (c9_retry_behavior "key"
      (fun n => if n = 1 then Except.error "timeout" else Except.ok "done")
      (by decide)).2.2.2.1 "timeout" "done" rfl (by decide) rfl

namespace trader

/-- Modelled from the spec: `decision.PositionInfo` (spec §3), whose defining
Go source is not among the files at hand; field set as the spec's data model
and the `trader` package tests use it. -/
structure PositionInfo where
  symbol : String
  side : String
  entryPrice : ℚ
  markPrice : ℚ
  quantity : ℚ
  leverage : ℚ
  stopLoss : ℚ
  takeProfit : ℚ
  liquidationPrice : ℚ
deriving DecidableEq, Repr

/-- Modelled from the spec: `calculatePnLPercentage(unrealizedPnl,
marginUsed)` of the `trader` package, whose implementation is not among the
files at hand (only its tests are): `unrealizedPnL / marginUsed × 100`, and 0
when the margin is zero or negative (spec §4.5). -/
def calculatePnLPercentage (unrealizedPnl marginUsed : ℚ) : ℚ :=
  if marginUsed ≤ 0 then 0 else unrealizedPnl / marginUsed * 100

/-- Modelled from the spec: the margin-used basis of `GetPositions`,
`quantity × entryPrice / leverage`, always from the entry price (spec §4.5);
the computing code is not among the files at hand (only its regression
tests are). -/
def marginUsedOf (quantity entryPrice leverage : ℚ) : ℚ :=
  quantity * entryPrice / leverage

/-- Modelled from the spec: the unrealized-PnL percentage that
`GetPositions` reports for a position, `calculatePnLPercentage` over the
entry-price-based margin.  The position's mark price does not enter. -/
def positionPnlPct (p : PositionInfo) (unrealizedPnl : ℚ) : ℚ :=
  calculatePnLPercentage unrealizedPnl (marginUsedOf p.quantity p.entryPrice p.leverage)

/-- Modelled from the spec: the tracking key of a position,
`symbol + "_" + side` (spec §3). -/
def positionKey (p : PositionInfo) : String := p.symbol ++ "_" ++ p.side

/-- Modelled from the spec: `detectClosedPositions` of the `trader` package
(`AutoTrader.lastPositions` diffing, spec §4.3), whose implementation is not
among the files at hand (only its tests are).  The previous snapshot is
`none` on first run; a previously tracked position is reported closed iff no
current position carries its key. -/
def detectClosedPositions (lastPositions : Option (List (String × PositionInfo)))
    (currentPositions : List PositionInfo) : List PositionInfo :=
  match lastPositions with
  | none => []
  | some snap =>
      (snap.filter (fun kv =>
        !(currentPositions.any (fun p => positionKey p == kv.1)))).map Prod.snd

end trader

/-- C3: the unrealized-PnL percentage is `unrealizedPnL / marginUsed × 100`
with the margin from the entry price, so it does not depend on the mark
price at all: for entry 50000, quantity 0.1, leverage 10 and PnL 100 it is
20% at every mark price in 49000..55000; and a zero-or-negative margin gives
0 rather than a division fault. -/
theorem c3_pnl_pct_basis (p : trader.PositionInfo) (unrealizedPnl m1 m2 : ℚ) :
    trader.positionPnlPct p unrealizedPnl =
      trader.calculatePnLPercentage unrealizedPnl
        (p.quantity * p.entryPrice / p.leverage) ∧
    trader.positionPnlPct
        ⟨p.symbol, p.side, p.entryPrice, m1, p.quantity, p.leverage,
          p.stopLoss, p.takeProfit, p.liquidationPrice⟩ unrealizedPnl =
      trader.positionPnlPct
        ⟨p.symbol, p.side, p.entryPrice, m2, p.quantity, p.leverage,
          p.stopLoss, p.takeProfit, p.liquidationPrice⟩ unrealizedPnl ∧
    (∀ m : ℚ, m ∈ ([49000, 50000, 51000, 52000, 55000] : List ℚ) →
      trader.positionPnlPct ⟨"BTCUSDT", "long", 50000, m, 1/10, 10, 0, 0, 0⟩ 100
        = 20) ∧
    (∀ pnl mu : ℚ, mu ≤ 0 → trader.calculatePnLPercentage pnl mu = 0) := by
  refine ⟨rfl, rfl, ?_, ?_⟩
  · intro m hm
    fin_cases hm <;> norm_num [trader.positionPnlPct, trader.marginUsedOf,
      trader.calculatePnLPercentage]
  · intro pnl mu h
    rw [trader.calculatePnLPercentage, if_pos h]

/-- Witness for C3 at concrete inputs: with entry 50000, quantity 0.1,
leverage 10 and PnL 100 the reported percentage is 20 at mark price 49000,
and a negative margin of -1000 yields 0. -/
theorem c3_pnl_pct_basis_witness :
    trader.positionPnlPct ⟨"BTCUSDT", "long", 50000, 49000, 1/10, 10, 0, 0, 0⟩ 100
      = 20 ∧
    trader.calculatePnLPercentage 100 (-1000) = 0 :=
  ⟨(c3_pnl_pct_basis ⟨"BTCUSDT", "long", 50000, 49000, 1/10, 10, 0, 0, 0⟩
      100 0 0).2.2.1 49000 (by norm_num),
    (c3_pnl_pct_basis ⟨"BTCUSDT", "long", 50000, 49000, 1/10, 10, 0, 0, 0⟩
      100 0 0).2.2.2 100 (-1000) (by norm_num)⟩

/-- C4: a position is reported closed iff its key is in the previous
snapshot and no current position carries that key; an absent (first-run)
snapshot yields the empty list whatever the current positions; a current set
equal to the snapshot yields the empty list; an empty current set yields
every previously tracked position. -/
theorem c4_detect_closed (snap : List (String × trader.PositionInfo))
    (cur : List trader.PositionInfo) :
    trader.detectClosedPositions none cur = [] ∧
    trader.detectClosedPositions (some snap) [] = snap.map Prod.snd ∧
    ((∀ kv ∈ snap, kv.1 = trader.positionKey kv.2) →
      trader.detectClosedPositions (some snap) (snap.map Prod.snd) = []) ∧
    (∀ q, q ∈ trader.detectClosedPositions (some snap) cur ↔
      ∃ k, (k, q) ∈ snap ∧ ∀ p ∈ cur, trader.positionKey p ≠ k) := by
  refine ⟨rfl, ?_, ?_, ?_⟩
  · simp [trader.detectClosedPositions]
  · intro hwf
    have hfil : snap.filter (fun kv =>
        !((snap.map Prod.snd).any (fun p => trader.positionKey p == kv.1))) = [] := by
      rw [List.filter_eq_nil_iff]
      intro kv hkv
      simp only [Bool.not_eq_true', Bool.not_eq_false, List.any_eq_true]
      exact ⟨kv.2, List.mem_map.mpr ⟨kv, hkv, rfl⟩,
        beq_iff_eq.mpr (hwf kv hkv).symm⟩
    simp [trader.detectClosedPositions, hfil]
  · intro q
    constructor
    · intro hq
      rcases List.mem_map.mp hq with ⟨kv, hkvmem, hsnd⟩
      rcases List.mem_filter.mp hkvmem with ⟨hmem, hpred⟩
      refine ⟨kv.1, ?_, ?_⟩
      · have hkv : (kv.1, q) = kv := by
          rw [← hsnd]
        rw [hkv]
        exact hmem
      · intro p hp
        simp only [Bool.not_eq_true', List.any_eq_false] at hpred
        intro hk
        exact absurd (beq_iff_eq.mpr hk) (by simpa using hpred p hp)
    · rintro ⟨k, hks, hnone⟩
      refine List.mem_map.mpr ⟨(k, q), List.mem_filter.mpr ⟨hks, ?_⟩, rfl⟩
      simp only [Bool.not_eq_true', List.any_eq_false]
      intro p hp
      simpa using hnone p hp

/-- A concrete long position for the C4 witness. -/
def c4pos : trader.PositionInfo := ⟨"BTCUSDT", "long", 50000, 49500, 1/10, 10, 0, 0, 0⟩

/-- Witness for C4 at concrete inputs: with one tracked `BTCUSDT_long`
position, a first-run (absent) snapshot reports nothing closed, an empty
current set reports that position closed, a current set equal to the
snapshot reports nothing, and the membership characterization holds at the
tracked position. -/
theorem c4_detect_closed_witness :
    trader.detectClosedPositions none [c4pos] = [] ∧
    trader.detectClosedPositions (some [("BTCUSDT_long", c4pos)]) [] = [c4pos] ∧
    trader.detectClosedPositions (some [("BTCUSDT_long", c4pos)])
      ([("BTCUSDT_long", c4pos)].map Prod.snd) = [] ∧
    (c4pos ∈ trader.detectClosedPositions (some [("BTCUSDT_long", c4pos)]) [] ↔
      ∃ k, (k, c4pos) ∈ [("BTCUSDT_long", c4pos)] ∧
        ∀ p ∈ ([] : List trader.PositionInfo), trader.positionKey p ≠ k) :=
  ⟨(c4_detect_closed [("BTCUSDT_long", c4pos)] [c4pos]).1,
    (c4_detect_closed [("BTCUSDT_long", c4pos)] []).2.1,
    (c4_detect_closed [("BTCUSDT_long", c4pos)] []).2.2.1 (by decide),
    (c4_detect_closed [("BTCUSDT_long", c4pos)] []).2.2.2 c4pos⟩
